import Mathlib

/-!
Formal model of the SlurmFixer script (`src/slurmfixer.py`).

The script has two pipelines:
* the job reconciler: `find_unfinished_jobs`, `find_running_jobs`,
  `find_bad_jobs`, `fix_bad_jobs`;
* the orphan detector: `get_node_names` / `name_string_to_list`,
  `get_running_user_node_names`, `get_node_processes`, `find_orphans`.

External effects (the MySQL accounting store, `squeue`, `sinfo`,
`scontrol`, `ssh ... ps`) are modelled by passing their observable data
in as parameters: the store is a list of `JobRecord` rows, each external
command's output is a `String` (or `Option String` where the call can
fail), and a failed subprocess call or a raised exception is `none`.
-/

/-- Constant `CLUSTER_NAME` (line 12 of the source). -/
def CLUSTER_NAME : String := "hardac"

/-- Constant `SKIP_USERS` (lines 17-28): system accounts excluded from orphan reports. -/
def SKIP_USERS : List String :=
  ["root", "postfix", "ntp", "rpc", "rpcuser", "dbus", "munge", "ganglia", "nscd", "68"]

/-- One row of the `<cluster>_job_table` accounting table, restricted to the
columns the script reads (`id_job`, `account`, `id_user`, `state`,
`time_start`, `time_end`, `job_name`).  All numeric columns are Python
ints, modelled as `Int`. -/
structure JobRecord where
  id_job : Int
  account : String
  id_user : Int
  state : Int
  time_start : Int
  time_end : Int
  job_name : String
  deriving DecidableEq, Repr

/-- The literal state threshold in the SQL of `find_unfinished_jobs`
(line 94: `state < 3`). -/
def FINISHED_THRESHOLD : Int := 3

/-- The `WHERE` clause of `find_unfinished_jobs` (line 94):
`state < 3 or time_end = 0`. -/
def unfinished (j : JobRecord) : Bool :=
  decide (j.state < FINISHED_THRESHOLD) || decide (j.time_end = 0)

/-- Comparison used by the `ORDER BY time_start` clause (line 95). -/
def startLE (a b : JobRecord) : Prop := a.time_start ≤ b.time_start

instance : DecidableRel startLE := fun a b => Int.decLe a.time_start b.time_start

instance : IsTotal JobRecord startLE := ⟨fun a b => Int.le_total a.time_start b.time_start⟩

instance : IsTrans JobRecord startLE := ⟨fun _ _ _ h1 h2 => Int.le_trans h1 h2⟩

/-- Function `find_unfinished_jobs` (lines 85-98): the SQL query
`select * from <cluster>_job_table where state < 3 or time_end = 0 order by time_start`
over a store modelled as a list of rows: keep the rows satisfying the
`WHERE` predicate, ordered by `time_start` ascending. -/
def find_unfinished_jobs (store : List JobRecord) : List JobRecord :=
  List.insertionSort startLE (store.filter unfinished)

/-- Removal of the quoting characters in `find_running_jobs`
(line 107: `line.replace(chr(34), '')`). -/
def stripQuotes (s : String) : String := String.mk (s.data.filter (fun c => c ≠ '"'))

/-- The whitespace characters stripped by Python `str.strip()` with no
argument (ASCII range). -/
def isPySpace (c : Char) : Bool :=
  c = ' ' || c = '\t' || c = '\n' || c = '\x0d' || c = '\x0b' || c = '\x0c'

/-- Model of Python `str.strip()`: drop leading and trailing whitespace. -/
def pyStrip (s : List Char) : List Char :=
  ((s.dropWhile isPySpace).reverse.dropWhile isPySpace).reverse

/-- Model of Python `str.split(sep)` for a one-character separator:
split at every occurrence, keeping empty parts (so the result always has
one more part than there are separators). -/
def pySplitChar (sep : Char) : List Char → List (List Char)
  | [] => [[]]
  | c :: rest =>
    match pySplitChar sep rest with
    | [] => [[c]]
    | t :: ts => if c = sep then [] :: t :: ts else (c :: t) :: ts

/-- Python `str.strip()` as a `String` operation. -/
def pyStripS (s : String) : String := String.mk (pyStrip s.data)

/-- Python `str.split(chr(10))` as a `String` operation: the lines of a command
output. -/
def pyLines (s : String) : List String := (pySplitChar '\n' s.data).map String.mk

/-- Decimal value of a digit string. -/
def digitsToNat (ds : List Char) : Nat :=
  ds.foldl (fun a c => a * 10 + (c.toNat - Char.toNat '0')) 0

/-- Model of Python `int(s)` on strings (line 107): strip surrounding
whitespace, then an optional sign followed by a non-empty run of decimal
digits; anything else raises `ValueError`, modelled as `none`. -/
def pyInt (s : String) : Option Int :=
  match pyStrip s.data with
  | [] => none
  | '-' :: ds =>
    if ds ≠ [] ∧ ds.all Char.isDigit then some (-(digitsToNat ds : Int)) else none
  | '+' :: ds =>
    if ds ≠ [] ∧ ds.all Char.isDigit then some (digitsToNat ds : Int) else none
  | ds =>
    if ds.all Char.isDigit then some (digitsToNat ds : Int) else none

/-- The list comprehension of `find_running_jobs` (line 107): one
`int(...)` per line, the first `ValueError` aborting the whole list. -/
def parseIds : List String → Option (List Int)
  | [] => some []
  | line :: rest =>
    match pyInt (stripQuotes line) with
    | none => none
    | some n =>
      match parseIds rest with
      | none => none
      | some ns => some (n :: ns)

/-- Function `find_running_jobs` (lines 101-107).  Its input is the raw stdout of
`squeue -h -o "%A"`, or `none` when `subprocess.check_output` raised.
The comprehension `[int(line.replace(chr(34), '')) for line in lines.split(chr(10)) if line]`
parses one integer per non-empty line and raises (`none`) on the first
unparseable line. -/
def find_running_jobs (output : Option String) : Option (List Int) :=
  match output with
  | none => none
  | some out => parseIds ((pyLines out).filter (fun line => line ≠ ""))

/-- The loop of `find_bad_jobs` (lines 117-123), parameterised by the
sequence of unfinished rows `U` and the live id set `running_jobs`:
start from `bad_jobs = []` and append each job whose `id_job` is not in
`running_jobs`. -/
def find_bad_jobs_from (U : List JobRecord) (running_jobs : List Int) : List JobRecord :=
  U.foldl (fun bad_jobs job =>
    if job.id_job ∈ running_jobs then bad_jobs else bad_jobs ++ [job]) []

/-- Function `find_bad_jobs` (lines 110-123): the loop above applied to the rows
returned by `find_unfinished_jobs`, with `running_jobs` the already
parsed live job ids (`set(find_running_jobs())`; membership in a Python
set of ints coincides with membership in the underlying list). -/
def find_bad_jobs (store : List JobRecord) (running_jobs : List Int) : List JobRecord :=
  find_bad_jobs_from (find_unfinished_jobs store) running_jobs

/-- The SQL text built for one bad job in `fix_bad_jobs` (lines 163-165);
the two-space gaps come from concatenating the adjacent Python string
literals. -/
def fix_statement (id_job : Int) : String :=
  "update " ++ CLUSTER_NAME ++ "_job_table " ++
    " set state = 5, time_end = time_start + 1 " ++
    " where id_job = " ++ toString id_job ++ ";"

/-- Everything `fix_bad_jobs` (lines 153-166) writes to stdout: the
`Fixing N jobs.` header (line 160; `print` with several arguments joins
them with single spaces) followed by one `fix_statement` per bad job
(line 166). -/
def fix_bad_jobs_output (store : List JobRecord) (running_jobs : List Int) : List String :=
  let bad_jobs := find_bad_jobs store running_jobs
  ("Fixing " ++ toString bad_jobs.length ++ " jobs.") ::
    bad_jobs.map (fun job => fix_statement job.id_job)

/-- State-passing model of a whole `fix_bad` run (lines 145-150 calling
lines 153-166).  `printed` is the stdout text; `executed` is the list of
SQL statements the run passes to `cursor.execute` other than the
read-only `SELECT` of `find_unfinished_jobs` — the source has no such
call: the `UPDATE` strings are built and printed (line 166), never
executed, so the store after the run is the store before it. -/
structure FixBadRun where
  printed : List String
  executed : List String
  finalStore : List JobRecord
  deriving Repr

/-- The observable effect of `fix_bad` on a given store and live id set. -/
def fix_bad_run (store : List JobRecord) (running_jobs : List Int) : FixBadRun :=
  { printed := fix_bad_jobs_output store running_jobs
    executed := []
    finalStore := store }

/-- Parsing of one `ps` output line in `get_node_processes` (lines 217-220):
`parts = line.strip().split(chr(124))`, then `parts[0].strip()`,
`parts[1].strip()`, `parts[2].strip()`.  With fewer than three fields the
subscript raises `IndexError`, modelled as `none`; fields past the third
are ignored. -/
def parseProcessLine (line : String) : Option (String × String × String) :=
  match pySplitChar '|' (pyStrip line.data) with
  | user :: pid :: cmd :: _ =>
    some (String.mk (pyStrip user), String.mk (pyStrip pid), String.mk (pyStrip cmd))
  | _ => none

/-- The loop of `get_node_processes` (lines 216-222): parse every line
(the first parse failure aborts the whole listing), keep the tuples whose
user is not in `SKIP_USERS`. -/
def parseProcessLines : List String → Option (List (String × String × String))
  | [] => some []
  | line :: rest =>
    match parseProcessLine line with
    | none => none
    | some p =>
      match parseProcessLines rest with
      | none => none
      | some procs => some (if p.1 ∈ SKIP_USERS then procs else p :: procs)

/-- Function `get_node_processes` (lines 207-223) given the raw stdout of
`ssh <node> ps -e --no-headers -o "%U|%p|%a"` (line 215 strips it and
splits on newlines before the parsing loop). -/
def get_node_processes (output : String) : Option (List (String × String × String)) :=
  parseProcessLines (pyLines (pyStripS output))

/-- Function `get_running_user_node_names` (lines 237-244): the stripped stdout of
`squeue -o "%u|%N"` split on newlines, one `user|node` string per line. -/
def get_running_user_node_names (output : String) : List String :=
  pyLines (pyStripS output)

/-- One row of the orphan report printed by `find_orphans` (line 181). -/
structure Orphan where
  node : String
  user : String
  pid : String
  cmd : String
  deriving DecidableEq, Repr

/-- The inner loop of `find_orphans` for one node (lines 178-181): report
each process of the node whose `user|node` key is not in the live set. -/
def node_orphans (running : List String) (node : String)
    (procs : List (String × String × String)) : List Orphan :=
  procs.filterMap (fun p =>
    if p.1 ++ "|" ++ node ∈ running then none else some ⟨node, p.1, p.2.1, p.2.2⟩)

/-- Function `find_orphans` (lines 169-184).  `nodeListing node` is the stdout of
the `ssh ... ps` call on that node, `none` when it raised; the bare
`except` on line 182 turns any failure of a node (unreachable node or a
parse error inside `get_node_processes`) into one stderr message and
moves on to the next node.  The live `user|node` set is bound once
(line 174) before the loop and used unchanged for every node.  Result:
(orphan rows printed to stdout, failure messages written to stderr). -/
def find_orphans (node_names : List String) (squeueOutput : String)
    (nodeListing : String → Option String) : List Orphan × List String :=
  let running_user_node_names := get_running_user_node_names squeueOutput
  (node_names.flatMap (fun node =>
      match (nodeListing node).bind get_node_processes with
      | none => []
      | some procs => node_orphans running_user_node_names node procs),
   node_names.filterMap (fun node =>
      match (nodeListing node).bind get_node_processes with
      | none => some ("Failed to check node " ++ node ++ "\n.")
      | some _ => none))

/-- The bracket alternative `\[[^\]]*\]` of the splitter regex of
`name_string_to_list` (line 233), applied to the characters after the
opening `[`: greedily take every character up to the first `]` and
consume that `]`; with no `]` in the rest of the input the alternative
fails.  Returns the consumed characters (without the opening `[`) and
the remainder. -/
def bracketAtom : List Char → Option (List Char × List Char)
  | [] => none
  | c :: rest =>
    if c = ']' then some ([']'], rest)
    else
      match bracketAtom rest with
      | some (pre, rem) => some (c :: pre, rem)
      | none => none

/-- One atom of the splitter regex `(?:[^,\[]|\[[^\]]*\])+` (line 233):
either a single character that is neither `,` nor `[`, or a full
bracketed group.  Returns the consumed characters and the remainder. -/
def atom : List Char → Option (List Char × List Char)
  | [] => none
  | c :: rest =>
    if c = ',' then none
    else if c = '[' then
      match bracketAtom rest with
      | some (pre, rem) => some ('[' :: pre, rem)
      | none => none
    else some ([c], rest)

/-- The greedy `+` over atoms: consume atoms while possible, returning
the match (possibly empty) and the remainder.  `fuel` bounds the number
of atoms; any `fuel ≥` length of the input is enough since every atom
consumes at least one character. -/
def matchRun : Nat → List Char → List Char × List Char
  | 0, s => ([], s)
  | fuel + 1, s =>
    match atom s with
    | none => ([], s)
    | some (pre, rem) =>
      let (pre2, rem2) := matchRun fuel rem
      (pre ++ pre2, rem2)

/-- Model of `re.findall` of the splitter regex: scan left to right; at each
position emit the maximal non-empty match if there is one, otherwise
advance one character.  `fuel` bounds the number of steps; any
`fuel ≥` length of the input is enough. -/
def findallAux : Nat → List Char → List (List Char)
  | 0, _ => []
  | fuel + 1, s =>
    match matchRun (fuel + 1) s with
    | ([], _) =>
      match s with
      | [] => []
      | _ :: rest => findallAux fuel rest
    | (c :: tok, rem) => (c :: tok) :: findallAux fuel rem

/-- Function `name_string_to_list` (lines 226-234):
`re.findall` of `(?:[^,\[]|\[[^\]]*\])+` over the composite name string. -/
def name_string_to_list (composite_names : String) : List String :=
  (findallAux composite_names.length composite_names.data).map String.mk

/-- Specification-side helper: parse every `ps` line of a node listing
with no skip-list filtering, `none` as soon as one line is malformed.
`parseProcessLines` equals this followed by the `SKIP_USERS` filter. -/
def parseAllLines : List String → Option (List (String × String × String))
  | [] => some []
  | line :: rest =>
    match parseProcessLine line, parseAllLines rest with
    | some p, some ps => some (p :: ps)
    | _, _ => none

/-! ## Helper lemmas -/

theorem find_bad_jobs_from_eq_filter (U : List JobRecord) (L : List Int) :
    find_bad_jobs_from U L = U.filter (fun job => decide (job.id_job ∉ L)) := by
  have h : ∀ (V : List JobRecord) (acc : List JobRecord),
      V.foldl (fun bad_jobs job =>
          if job.id_job ∈ L then bad_jobs else bad_jobs ++ [job]) acc
        = acc ++ V.filter (fun job => decide (job.id_job ∉ L)) := by
    intro V
    induction V with
    | nil => intro acc; simp
    | cons j V ih =>
      intro acc
      by_cases hj : j.id_job ∈ L
      · simp [List.foldl_cons, ih, List.filter_cons, hj]
      · simp [List.foldl_cons, ih, List.filter_cons, hj]
  simpa [find_bad_jobs_from] using h U []

theorem unfinished_iff (j : JobRecord) :
    unfinished j = decide (j.state < FINISHED_THRESHOLD ∨ j.time_end = 0) := by
  simp [unfinished, Bool.decide_or]

theorem parseIds_eq_none_iff (lines : List String) :
    parseIds lines = none ↔ ∃ l ∈ lines, pyInt (stripQuotes l) = none := by
  induction lines with
  | nil => simp [parseIds]
  | cons l rest ih =>
    constructor
    · intro h
      simp only [parseIds] at h
      cases hl : pyInt (stripQuotes l) with
      | none => exact ⟨l, List.mem_cons_self l rest, hl⟩
      | some n =>
        rw [hl] at h
        cases hr : parseIds rest with
        | none =>
          obtain ⟨x, hx, hpx⟩ := ih.1 hr
          exact ⟨x, List.mem_cons_of_mem _ hx, hpx⟩
        | some ns => rw [hr] at h; simp at h
    · rintro ⟨x, hx, hpx⟩
      rcases List.mem_cons.mp hx with rfl | hx
      · simp [parseIds, hpx]
      · have hrest : parseIds rest = none := ih.2 ⟨_, hx, hpx⟩
        cases hl : pyInt (stripQuotes l) with
        | none => simp [parseIds, hl]
        | some n => simp [parseIds, hl, hrest]

theorem parseIds_eq_some_iff (lines : List String) (ids : List Int) :
    parseIds lines = some ids ↔
      List.Forall₂ (fun line n => pyInt (stripQuotes line) = some n) lines ids := by
  induction lines generalizing ids with
  | nil =>
    cases ids <;> simp [parseIds]
  | cons l rest ih =>
    constructor
    · intro h
      simp only [parseIds] at h
      cases hl : pyInt (stripQuotes l) with
      | none => rw [hl] at h; exact absurd h (by simp)
      | some n =>
        rw [hl] at h
        cases hr : parseIds rest with
        | none => rw [hr] at h; exact absurd h (by simp)
        | some ns =>
          rw [hr] at h
          simp only [Option.some.injEq] at h
          subst h
          exact List.Forall₂.cons hl ((ih ns).1 hr)
    · intro h
      cases h with
      | cons hl hrest =>
        simp [parseIds, hl, (ih _).2 hrest]

/-! ## Claim theorems -/

/-- C1: for every sequence `U` of unfinished store records and every set `L`
of live job ids, `find_bad_jobs` returns exactly the records of `U` whose
`id_job` is not a member of `L`, in the relative order of `U` (it equals the
order-preserving `filter`); if `L` contains every id occurring in `U`, the
result is empty.  The third conjunct ties the full pipeline to this loop:
`find_bad_jobs` applies it to the rows of `find_unfinished_jobs`. -/
theorem find_bad_jobs_filters_live (U : List JobRecord) (L : List Int) :
    find_bad_jobs_from U L = U.filter (fun job => decide (job.id_job ∉ L)) ∧
    ((∀ job ∈ U, job.id_job ∈ L) → find_bad_jobs_from U L = []) ∧
    (∀ store : List JobRecord,
      find_bad_jobs store L
        = (find_unfinished_jobs store).filter (fun job => decide (job.id_job ∉ L))) := by
  refine ⟨find_bad_jobs_from_eq_filter U L, fun h => ?_, fun store => ?_⟩
  · rw [find_bad_jobs_from_eq_filter]
    simp only [List.filter_eq_nil_iff]
    intro job hj
    simpa using h job hj
  · exact find_bad_jobs_from_eq_filter (find_unfinished_jobs store) L

theorem find_bad_jobs_filters_live_witness :
    (∀ job ∈ [JobRecord.mk 100 "acct" 7 1 1000 0 "j"], job.id_job ∈ [(100 : Int), 200]) ∧
    find_bad_jobs_from [JobRecord.mk 100 "acct" 7 1 1000 0 "j"] [100, 200] = [] :=
  ⟨by decide,
   (find_bad_jobs_filters_live [JobRecord.mk 100 "acct" 7 1 1000 0 "j"] [100, 200]).2.1
     (by decide)⟩

/-- C4: `find_unfinished_jobs` returns exactly the store rows satisfying
`state < FINISHED_THRESHOLD ∨ time_end = 0` (as a permutation of the
order-preserving filter), sorted by `time_start` ascending; and in the
scenario with job 100 (state 1, end 0), job 200 (state 5, end 12345) and
live ids `{200}`, `find_bad_jobs` returns only job 100. -/
theorem find_unfinished_jobs_spec :
    (∀ store : List JobRecord,
      (find_unfinished_jobs store).Perm
          (store.filter (fun j => decide (j.state < FINISHED_THRESHOLD ∨ j.time_end = 0))) ∧
      List.Sorted startLE (find_unfinished_jobs store)) ∧
    find_bad_jobs
        [JobRecord.mk 100 "acct" 7 1 1000 0 "x", JobRecord.mk 200 "acct" 7 5 2000 12345 "y"]
        [200]
      = [JobRecord.mk 100 "acct" 7 1 1000 0 "x"] := by
  refine ⟨fun store => ⟨?_, ?_⟩, ?_⟩
  · have h1 : find_unfinished_jobs store |>.Perm (store.filter unfinished) :=
      List.perm_insertionSort startLE (store.filter unfinished)
    have h2 : store.filter unfinished
        = store.filter (fun j => decide (j.state < FINISHED_THRESHOLD ∨ j.time_end = 0)) :=
      List.filter_congr (fun j _ => (unfinished_iff j))
    exact h2 ▸ h1
  · exact List.sorted_insertionSort startLE (store.filter unfinished)
  · rfl

/-- C3: for every store and live id set, the fix planner prints exactly one
mutation statement per bad job (the statements being everything after the
`Fixing N jobs.` header line), the `i`-th statement being the `UPDATE` for
the `i`-th bad job's `id_job`; and every such statement sets
`state = 5` (the fixed completed-abnormally code) and
`time_end = time_start + 1`, as spelled out by the literal text of
`fix_statement`. -/
theorem fix_bad_jobs_one_statement_per_bad_job (store : List JobRecord) (L : List Int) :
    ((fix_bad_jobs_output store L).tail).length = (find_bad_jobs store L).length ∧
    (∀ i : Nat,
      ((fix_bad_jobs_output store L).tail)[i]?
        = ((find_bad_jobs store L)[i]?).map (fun job => fix_statement job.id_job)) ∧
    (∀ id_job : Int,
      fix_statement id_job
        = "update hardac_job_table  set state = 5, time_end = time_start + 1  where id_job = "
            ++ toString id_job ++ ";") := by
  refine ⟨?_, fun i => ?_, fun id_job => ?_⟩
  · simp [fix_bad_jobs_output]
  · simp [fix_bad_jobs_output]
  · simp [fix_statement, CLUSTER_NAME, String.append_assoc]

/-- C7: a `fix_bad` run only computes and emits the corrective statements:
the list of store-mutating statements it executes is empty, hence for any
execution semantics the store after the run is the store before it, and
its only observable output is the printed plan. -/
theorem fix_bad_executes_nothing (store : List JobRecord) (L : List Int) :
    (fix_bad_run store L).executed = [] ∧
    (fix_bad_run store L).finalStore = store ∧
    (∀ exec : List JobRecord → String → List JobRecord,
      ((fix_bad_run store L).executed).foldl exec store = store) ∧
    (fix_bad_run store L).printed = fix_bad_jobs_output store L :=
  ⟨rfl, rfl, fun _ => rfl, rfl⟩

/-- C8: `find_running_jobs` fails when the live-queue listing could not be
obtained; on an obtained listing it fails exactly when some non-empty
line is not parseable as an integer after quote stripping, and succeeds
exactly when it parses one integer per non-empty line, in order
(`List.Forall₂` pairs the `i`-th non-empty line with the `i`-th id). -/
theorem find_running_jobs_spec :
    find_running_jobs none = none ∧
    ∀ out : String,
      (find_running_jobs (some out) = none ↔
        ∃ line ∈ (pyLines out).filter (fun l => l ≠ ""),
          pyInt (stripQuotes line) = none) ∧
      ∀ ids : List Int,
        (find_running_jobs (some out) = some ids ↔
          List.Forall₂ (fun line n => pyInt (stripQuotes line) = some n)
            ((pyLines out).filter (fun l => l ≠ "")) ids) :=
  ⟨rfl, fun _ => ⟨parseIds_eq_none_iff _, fun _ => parseIds_eq_some_iff _ _⟩⟩

theorem parseProcessLines_eq (lines : List String) :
    parseProcessLines lines
      = (parseAllLines lines).map
          (fun ps => ps.filter (fun p => decide (p.1 ∉ SKIP_USERS))) := by
  induction lines with
  | nil => rfl
  | cons l rest ih =>
    cases hl : parseProcessLine l with
    | none => simp [parseProcessLines, parseAllLines, hl]
    | some p =>
      cases hr : parseAllLines rest with
      | none =>
        have hpp : parseProcessLines rest = none := by rw [ih, hr]; rfl
        simp [parseProcessLines, parseAllLines, hl, hr, hpp]
      | some ps =>
        have hpp : parseProcessLines rest
            = some (ps.filter (fun p => decide (p.1 ∉ SKIP_USERS))) := by
          rw [ih, hr]; rfl
        by_cases hp : p.1 ∈ SKIP_USERS
        · simp [parseProcessLines, parseAllLines, hl, hr, hpp, List.filter_cons, hp]
        · simp [parseProcessLines, parseAllLines, hl, hr, hpp, List.filter_cons, hp]

theorem get_node_processes_eq (out : String) :
    get_node_processes out
      = (parseAllLines (pyLines (pyStripS out))).map
          (fun ps => ps.filter (fun p => decide (p.1 ∉ SKIP_USERS))) :=
  parseProcessLines_eq _

theorem mem_node_orphans {running : List String} {node : String}
    {procs : List (String × String × String)} {o : Orphan} :
    o ∈ node_orphans running node procs ↔
      o.node = node ∧ (o.user, o.pid, o.cmd) ∈ procs ∧
        o.user ++ "|" ++ node ∉ running := by
  simp only [node_orphans, List.mem_filterMap]
  constructor
  · rintro ⟨p, hp, hcond⟩
    by_cases hk : p.1 ++ "|" ++ node ∈ running
    · rw [if_pos hk] at hcond; exact absurd hcond (by simp)
    · rw [if_neg hk] at hcond
      have ho : Orphan.mk node p.1 p.2.1 p.2.2 = o := by
        simpa using hcond
      subst ho
      exact ⟨rfl, hp, hk⟩
  · rintro ⟨hnode, hmem, hkey⟩
    subst hnode
    refine ⟨(o.user, o.pid, o.cmd), hmem, ?_⟩
    rw [if_neg hkey]

/-- C2: the live `user|node` pair set is computed once from the single
`squeue` output bound before the per-node loop and the same set is used
for every node (first conjunct, which also exhibits the per-node scan);
and an orphan row is reported exactly for a process on a node of the
expanded node list whose listing was obtained and fully parsed, whose
user is not in `SKIP_USERS`, and whose `user|node` key is absent from
that live pair set (second conjunct). -/
theorem find_orphans_reports_iff (nodes : List String) (squeueOut : String)
    (listing : String → Option String) (o : Orphan) :
    ((find_orphans nodes squeueOut listing).1
      = nodes.flatMap (fun node =>
          match (listing node).bind get_node_processes with
          | none => []
          | some procs =>
            node_orphans (get_running_user_node_names squeueOut) node procs)) ∧
    (o ∈ (find_orphans nodes squeueOut listing).1 ↔
      o.node ∈ nodes ∧ o.user ∉ SKIP_USERS ∧
      o.user ++ "|" ++ o.node ∉ get_running_user_node_names squeueOut ∧
      ∃ out parsed, listing o.node = some out ∧
        parseAllLines (pyLines (pyStripS out)) = some parsed ∧
        (o.user, o.pid, o.cmd) ∈ parsed) := by
  refine ⟨rfl, ?_⟩
  rw [show (find_orphans nodes squeueOut listing).1
      = nodes.flatMap (fun node =>
          match (listing node).bind get_node_processes with
          | none => []
          | some procs =>
            node_orphans (get_running_user_node_names squeueOut) node procs) from rfl]
  rw [List.mem_flatMap]
  constructor
  · rintro ⟨n, hn, ho⟩
    cases h : (listing n).bind get_node_processes with
    | none => rw [h] at ho; exact absurd ho (List.not_mem_nil o)
    | some procs =>
      rw [h] at ho
      obtain ⟨hnode, hmem, hkey⟩ := mem_node_orphans.mp ho
      subst hnode
      obtain ⟨out, hout, hproc⟩ := Option.bind_eq_some.mp h
      rw [get_node_processes_eq] at hproc
      obtain ⟨parsed, hparsed, hfilter⟩ := Option.map_eq_some'.mp hproc
      subst hfilter
      obtain ⟨hmem', hq⟩ := List.mem_filter.mp hmem
      refine ⟨hn, ?_, hkey, out, parsed, hout, hparsed, hmem'⟩
      simpa using hq
  · rintro ⟨hn, hskip, hkey, out, parsed, hout, hparsed, hmem⟩
    refine ⟨o.node, hn, ?_⟩
    have h : (listing o.node).bind get_node_processes
        = some (parsed.filter (fun p => decide (p.1 ∉ SKIP_USERS))) := by
      rw [hout, Option.some_bind, get_node_processes_eq, hparsed, Option.map_some']
    rw [h]
    exact mem_node_orphans.mpr
      ⟨rfl, List.mem_filter.mpr ⟨hmem, by simpa using hskip⟩, hkey⟩

/-- C6: when the process listing of the first node of the scan fails
(unreachable node: the `ssh` call raised, or its output failed to parse),
`find_orphans` emits one failure message for that node on the error
channel and its orphan report is exactly the report for the remaining
nodes — the failure never suppresses orphans found on other nodes. -/
theorem find_orphans_skips_failed_node (node : String) (rest : List String)
    (squeueOut : String) (listing : String → Option String)
    (h : (listing node).bind get_node_processes = none) :
    find_orphans (node :: rest) squeueOut listing
      = ((find_orphans rest squeueOut listing).1,
         ("Failed to check node " ++ node ++ "\n.")
           :: (find_orphans rest squeueOut listing).2) := by
  simp only [find_orphans, List.flatMap_cons, List.filterMap_cons, h]
  rfl

theorem find_orphans_skips_failed_node_witness :
    find_orphans ["n1", "n2"] "bob|n9"
        (fun n => if n = "n1" then none else some "alice|101|python foo.py")
      = ([Orphan.mk "n2" "alice" "101" "python foo.py"],
         ["Failed to check node n1\n."]) := by
  rw [find_orphans_skips_failed_node "n1" ["n2"] "bob|n9"
    (fun n => if n = "n1" then none else some "alice|101|python foo.py") rfl]
  rfl

/-- C10: `parseProcessLine` keeps the first three `|`-fields of a line,
silently dropping every field after the third (first two conjuncts); a
line with fewer than three fields parses to `none` (third conjunct), and
one such line makes the whole node listing fail (fourth conjunct), so
`find_orphans` skips that node and reports it on the error channel
(fifth conjunct). -/
theorem get_node_processes_parse_behaviour :
    (∀ line : String, ∀ user pid cmd : List Char, ∀ rest : List (List Char),
      pySplitChar '|' (pyStrip line.data) = user :: pid :: cmd :: rest →
      parseProcessLine line
        = some (String.mk (pyStrip user), String.mk (pyStrip pid),
                String.mk (pyStrip cmd))) ∧
    parseProcessLine "alice|12|cmd|extra" = some ("alice", "12", "cmd") ∧
    (∀ line : String, (pySplitChar '|' (pyStrip line.data)).length < 3 →
      parseProcessLine line = none) ∧
    (∀ lines : List String, ∀ line ∈ lines, parseProcessLine line = none →
      parseProcessLines lines = none) ∧
    find_orphans ["n"] "x|y" (fun _ => some "alice|12")
      = ([], ["Failed to check node n\n."]) := by
  refine ⟨fun line user pid cmd rest h => ?_, rfl, fun line h => ?_, ?_, rfl⟩
  · simp [parseProcessLine, h]
  · simp only [parseProcessLine]
    split
    · rename_i user pid cmd rest heq
      rw [heq] at h
      simp only [List.length_cons] at h
      omega
    · rfl
  · intro lines
    induction lines with
    | nil => intro line h; exact absurd h (List.not_mem_nil line)
    | cons l rest ih =>
      intro line hmem hnone
      rcases List.mem_cons.mp hmem with rfl | hmem'
      · simp [parseProcessLines, hnone]
      · have hrest : parseProcessLines rest = none := ih line hmem' hnone
        cases hl : parseProcessLine l with
        | none => simp [parseProcessLines, hl]
        | some p => simp [parseProcessLines, hl, hrest]

theorem get_node_processes_parse_behaviour_witness :
    parseProcessLines ["x|y|z", "alice|12"] = none :=
  get_node_processes_parse_behaviour.2.2.2.1 ["x|y|z", "alice|12"] "alice|12"
    (by simp) rfl

/-- C5: `name_string_to_list` splits on commas except commas inside a
matching bracket pair: the bracketed range spec stays one token, a plain
comma-separated list splits into its elements, and the empty string
yields the empty list. -/
theorem name_string_to_list_examples :
    name_string_to_list "node[01-03,05],gpu07" = ["node[01-03,05]", "gpu07"] ∧
    name_string_to_list "a,b,c" = ["a", "b", "c"] ∧
    name_string_to_list "" = [] :=
  ⟨rfl, rfl, rfl⟩

theorem findallAux_ne_nil :
    ∀ (fuel : Nat) (s : List Char), ∀ tok ∈ findallAux fuel s, tok ≠ [] := by
  intro fuel
  induction fuel with
  | zero => intro s tok htok; simp [findallAux] at htok
  | succ fuel ih =>
    intro s tok htok
    simp only [findallAux] at htok
    split at htok
    · split at htok
      · exact absurd htok (List.not_mem_nil tok)
      · exact ih _ tok htok
    · rcases List.mem_cons.mp htok with rfl | hmem
      · exact List.cons_ne_nil _ _
      · exact ih _ tok hmem

/-- C9: `name_string_to_list` never returns an empty token: the regular
pattern requires at least one atom per match, so consecutive commas act
as one delimiter, and an unmatched opening bracket cannot start or
continue a match, so it acts as a delimiter and is dropped. -/
theorem name_string_to_list_no_empty_token :
    (∀ s : String, ∀ t ∈ name_string_to_list s, t ≠ "") ∧
    name_string_to_list "a,,b" = ["a", "b"] ∧
    name_string_to_list "node[01" = ["node", "01"] := by
  refine ⟨fun s t ht => ?_, rfl, rfl⟩
  simp only [name_string_to_list, List.mem_map] at ht
  obtain ⟨tok, htok, rfl⟩ := ht
  have hne := findallAux_ne_nil s.length s.data tok htok
  intro h
  exact hne (congrArg String.data h)

theorem name_string_to_list_no_empty_token_witness :
    "a" ∈ name_string_to_list "a,,b" ∧ "a" ≠ "" := by
  have hmem : "a" ∈ name_string_to_list "a,,b" := by
    rw [name_string_to_list_no_empty_token.2.1]
    exact List.mem_cons_self "a" ["b"]
  exact ⟨hmem, name_string_to_list_no_empty_token.1 "a,,b" "a" hmem⟩
